import Mathlib

set_option maxRecDepth 4000

/-! Shallow embedding of the CJ voice-assistant command pipeline
    (src/assistant/brain.py, memory.py, commands.py, executor.py,
    src/skills/timer.py, knowledge.py, src/main.py).
    Python strings are modelled as `List Char`; the wrappers convert
    from Lean `String` at the boundary. -/

/-- Python whitespace set used by `str.strip` (space, tab, newline,
    carriage return, vertical tab, form feed). -/
def isPyWs (c : Char) : Bool :=
  c = ' ' || c = '\t' || c = '\n' || c = '\r' || c = '\x0b' || c = '\x0c'

/-- Drop trailing characters satisfying `isPyWs` (right half of `str.strip`). -/
def rdropWs (l : List Char) : List Char :=
  (l.reverse.dropWhile isPyWs).reverse

/-- `str.strip()` with no arguments: drop leading and trailing whitespace. -/
def pyStripL (l : List Char) : List Char :=
  rdropWs (l.dropWhile isPyWs)

/-- `str.lower()` (ASCII case folding suffices for the commands involved). -/
def pyLowerL (l : List Char) : List Char :=
  l.map Char.toLower

/-- `pat` is a prefix of `l` (boolean test used by the substring scanner). -/
def isPreB (pat l : List Char) : Bool :=
  l.take pat.length = pat

/-- Index of the leftmost occurrence of `pat` in `l`, if any.  This is the
    search primitive behind Python `in`, `str.split` and `str.replace`. -/
def findPat (pat : List Char) : List Char → Option Nat
  | [] => if pat = [] then some 0 else none
  | c :: cs => if isPreB pat (c :: cs) then some 0 else (findPat pat cs).map (· + 1)

/-- Python `pat in l` (substring containment). -/
def strContainsB (l pat : List Char) : Bool :=
  (findPat pat l).isSome

/-- Fueled worker for Python `str.split(sep)` with a non-empty separator:
    split at each leftmost occurrence, left to right. -/
def pySplitGo (pat : List Char) : Nat → List Char → List (List Char)
  | 0, l => [l]
  | fuel + 1, l =>
    match findPat pat l with
    | none => [l]
    | some i => l.take i :: pySplitGo pat fuel (l.drop (i + pat.length))

/-- Python `l.split(pat)` for non-empty `pat`. -/
def pySplitL (l pat : List Char) : List (List Char) :=
  pySplitGo pat (l.length + 1) l

/-- Python `l.split(pat, 1)` (at most one split). -/
def pySplit1 (l pat : List Char) : List (List Char) :=
  match findPat pat l with
  | none => [l]
  | some i => [l.take i, l.drop (i + pat.length)]

/-- Python `l.replace(old, new)` for non-empty `old`. -/
def pyReplaceL (l old new : List Char) : List Char :=
  List.intercalate new (pySplitL l old)

/-- Digits to a natural number (`int(...)` on a digit group). -/
def natOfDigits (ds : List Char) : Nat :=
  ds.foldl (fun n c => n * 10 + (c.toNat - 48)) 0

/-! ## JSON values and a parser for the JSON subset exchanged with the LLM

`json.loads` is embedded as a recursive-descent parser over `List Char`
covering null, booleans, numbers (stored as their lexeme), strings with
the standard escapes, arrays and objects.  Object fields keep duplicates
in textual order; `jLookup` takes the last binding, matching Python
dict construction where a later duplicate key wins. -/

inductive Json where
  | null
  | bool (b : Bool)
  | num (lexeme : List Char)
  | str (s : List Char)
  | arr (elems : List Json)
  | obj (fields : List (List Char × Json))

/-- JSON whitespace (the four characters `json.loads` skips between tokens). -/
def isJsonWs (c : Char) : Bool :=
  c = ' ' || c = '\t' || c = '\n' || c = '\r'

def skipJsonWs (l : List Char) : List Char :=
  l.dropWhile isJsonWs

/-- Consume the literal `lit` from the front of `l`. -/
def stripLit (lit l : List Char) : Option (List Char) :=
  if l.take lit.length = lit then some (l.drop lit.length) else none

/-- Value of a hex digit, if the character is one. -/
def hexVal (c : Char) : Option Nat :=
  if '0' ≤ c ∧ c ≤ '9' then some (c.toNat - 48)
  else if 'a' ≤ c ∧ c ≤ 'f' then some (c.toNat - 87)
  else if 'A' ≤ c ∧ c ≤ 'F' then some (c.toNat - 55)
  else none

/-- Translation of a single-character escape after a backslash. -/
def escChar (c : Char) : Option Char :=
  if c = '"' then some '"'
  else if c = '\\' then some '\\'
  else if c = '/' then some '/'
  else if c = 'b' then some '\x08'
  else if c = 'f' then some '\x0c'
  else if c = 'n' then some '\n'
  else if c = 'r' then some '\r'
  else if c = 't' then some '\t'
  else none

/-- Scan a JSON string body (the opening quote already consumed); returns
    the decoded characters and the input after the closing quote. -/
def scanStr : List Char → Option (List Char × List Char)
  | [] => none
  | c :: rest =>
    if c = '"' then some ([], rest)
    else if c = '\\' then
      match rest with
      | [] => none
      | e :: rest2 =>
        if e = 'u' then
          match rest2 with
          | h1 :: h2 :: h3 :: h4 :: rest3 =>
            match hexVal h1, hexVal h2, hexVal h3, hexVal h4 with
            | some a, some b, some c3, some d =>
              (scanStr rest3).map
                (fun p => (Char.ofNat (((a * 16 + b) * 16 + c3) * 16 + d) :: p.1, p.2))
            | _, _, _, _ => none
          | _ => none
        else
          match escChar e with
          | some ch => (scanStr rest2).map (fun p => (ch :: p.1, p.2))
          | none => none
    else if c.toNat < 32 then none
    else (scanStr rest).map (fun p => (c :: p.1, p.2))

/-- Scan a JSON number lexeme (strict grammar of `json.loads`). -/
def scanNum (l : List Char) : Option (List Char × List Char) :=
  let signLen : Nat := if l.take 1 = ['-'] then 1 else 0
  let afterSign := l.drop signLen
  match afterSign with
  | [] => none
  | d :: _ =>
    if ¬ d.isDigit then none
    else
      let intPart := if d = '0' then ['0'] else afterSign.takeWhile Char.isDigit
      let afterInt := afterSign.drop intPart.length
      let fracPart :=
        match afterInt with
        | '.' :: t => if (t.takeWhile Char.isDigit) = [] then none
                      else some ('.' :: t.takeWhile Char.isDigit)
        | _ => some []
      match fracPart with
      | none => none
      | some fp =>
        let afterFrac := afterInt.drop fp.length
        let expPart :=
          match afterFrac with
          | e :: t =>
            if e = 'e' ∨ e = 'E' then
              let signE : List Char :=
                match t with
                | s :: _ => if s = '+' ∨ s = '-' then [s] else []
                | [] => []
              let digs := (t.drop signE.length).takeWhile Char.isDigit
              if digs = [] then none else some (e :: signE ++ digs)
            else some []
          | [] => some []
        match expPart with
        | none => none
        | some ep =>
          let lex := l.take signLen ++ intPart ++ fp ++ ep
          some (lex, afterFrac.drop ep.length)

mutual
/-- Parse one JSON value from the front of the input (leading whitespace
    allowed); fueled to bound nesting depth. -/
def parseVal : Nat → List Char → Option (Json × List Char)
  | 0, _ => none
  | fuel + 1, input =>
    match skipJsonWs input with
    | [] => none
    | c :: rest =>
      if c = 'n' then (stripLit "ull".toList rest).map (fun r => (Json.null, r))
      else if c = 't' then (stripLit "rue".toList rest).map (fun r => (Json.bool true, r))
      else if c = 'f' then (stripLit "alse".toList rest).map (fun r => (Json.bool false, r))
      else if c = '"' then (scanStr rest).map (fun p => (Json.str p.1, p.2))
      else if c = '[' then
        match skipJsonWs rest with
        | ']' :: r2 => some (Json.arr [], r2)
        | r2 =>
          match parseVal fuel r2 with
          | none => none
          | some (v, r3) =>
            match parseArrTail fuel r3 with
            | none => none
            | some (vs, r4) => some (Json.arr (v :: vs), r4)
      else if c = '{' then
        match skipJsonWs rest with
        | '}' :: r2 => some (Json.obj [], r2)
        | r2 =>
          match parseMember fuel r2 with
          | none => none
          | some (kv, r3) =>
            match parseObjTail fuel r3 with
            | none => none
            | some (kvs, r4) => some (Json.obj (kv :: kvs), r4)
      else (scanNum (c :: rest)).map (fun p => (Json.num p.1, p.2))

/-- Parse `, value , value ... ]` after the first array element. -/
def parseArrTail : Nat → List Char → Option (List Json × List Char)
  | 0, _ => none
  | fuel + 1, input =>
    match skipJsonWs input with
    | ']' :: r => some ([], r)
    | ',' :: r =>
      match parseVal fuel r with
      | none => none
      | some (v, r2) =>
        match parseArrTail fuel r2 with
        | none => none
        | some (vs, r3) => some (v :: vs, r3)
    | _ => none

/-- Parse one `"key" : value` object member. -/
def parseMember : Nat → List Char → Option ((List Char × Json) × List Char)
  | 0, _ => none
  | fuel + 1, input =>
    match skipJsonWs input with
    | '"' :: r =>
      match scanStr r with
      | none => none
      | some (k, r2) =>
        match skipJsonWs r2 with
        | ':' :: r3 =>
          match parseVal fuel r3 with
          | none => none
          | some (v, r4) => some ((k, v), r4)
        | _ => none
    | _ => none

/-- Parse `, member , member ... }` after the first object member. -/
def parseObjTail : Nat → List Char → Option (List (List Char × Json) × List Char)
  | 0, _ => none
  | fuel + 1, input =>
    match skipJsonWs input with
    | '}' :: r => some ([], r)
    | ',' :: r =>
      match parseMember fuel r with
      | none => none
      | some (kv, r2) =>
        match parseObjTail fuel r2 with
        | none => none
        | some (kvs, r3) => some (kv :: kvs, r3)
    | _ => none
end

/-- `json.loads`: parse a complete JSON document, allowing only trailing
    whitespace; `none` models a raised `JSONDecodeError`. -/
def jsonParse (l : List Char) : Option Json :=
  match parseVal (l.length + 1) l with
  | some (v, rest) => if skipJsonWs rest = [] then some v else none
  | none => none

/-- Last binding of key `k` in an object field list (`dict` lookup:
    a later duplicate key wins). -/
def jLookup (fields : List (List Char × Json)) (k : List Char) : Option Json :=
  fields.foldl (fun acc kv => if kv.1 = k then some kv.2 else acc) none

/-! ## Brain._parse_response (src/assistant/brain.py lines 158-180) -/

/-- The tagged fence marker searched first by `_parse_response`. -/
def jsonFence : List Char := "```json".toList

/-- The bare fence marker. -/
def fence3 : List Char := "```".toList

/-- The backquote character (written via a string literal). -/
def backq : Char := "`".toList.headD ' '

/-- The Python `Action` TypedDict as produced by `_parse_response`: the
    three entries hold whatever JSON values `data.get` returned. -/
structure JAction where
  action : Json
  target : Json
  response : Json

/-- The fence-stripping step of `_parse_response`: if the text contains
    three-backticks-json, keep what stands between the first such marker and
    the next bare fence; otherwise, if it contains a bare fence, keep what
    stands between the first and the second; otherwise keep the text. -/
def fenceExtractL (c : List Char) : List Char :=
  if strContainsB c jsonFence then
    ((pySplitL ((pySplitL c jsonFence).getD 1 []) fence3).getD 0 [])
  else if strContainsB c fence3 then
    ((pySplitL ((pySplitL c fence3).getD 1 []) fence3).getD 0 [])
  else c

/-- Build the returned Action from a decoded JSON object: `data.get` with
    the defaults `"speak"`, `None` and `"Done"`. -/
def mkParsedAction (fields : List (List Char × Json)) : JAction :=
  { action := (jLookup fields "action".toList).getD (Json.str "speak".toList)
    target := (jLookup fields "target".toList).getD Json.null
    response := (jLookup fields "response".toList).getD (Json.str "Done".toList) }

/-- `Brain._parse_response` over `List Char`.  `none` models an uncaught
    exception (the JSON decoded but was not an object, so `.get` raises
    `AttributeError`, which the `except json.JSONDecodeError` clause does
    not catch).  On decode failure the current value of the local variable
    `content` — stripped and possibly fence-extracted, NOT re-stripped —
    becomes the spoken response, with a fallback when it is empty. -/
def parseResponseL (content : List Char) : Option JAction :=
  let c1 := pyStripL content
  let c2 := fenceExtractL c1
  match jsonParse (pyStripL c2) with
  | some (Json.obj fields) => some (mkParsedAction fields)
  | some _ => none
  | none =>
    some { action := Json.str "speak".toList
           target := Json.null
           response := Json.str (if c2 = [] then "I didn't understand that.".toList else c2) }

namespace Brain

/-- `Brain._parse_response` at the `String` boundary. -/
def parse_response (content : String) : Option JAction :=
  parseResponseL content.toList

end Brain

/-! ## Memory (src/assistant/memory.py lines 39-49) -/

/-- A conversation turn; `content` is whatever value was appended
    (`add_assistant_message` receives `action["response"]`). -/
structure PyMessage where
  role : List Char
  content : Json
  ts : Nat

/-- Python `l[-k:]`: the last `k` elements — except that `l[-0:]` is the
    whole list, the quirk `Memory._add_message` inherits when
    `max_messages = 0`. -/
def pyTailSlice (l : List α) (k : Nat) : List α :=
  if k = 0 then l else l.drop (l.length - k)

/-- `Memory._add_message`: append, then keep only the last
    `max_messages` entries when the bound is exceeded. -/
def pyAddMessage (maxMessages : Nat) (msgs : List α) (m : α) : List α :=
  let grown := msgs ++ [m]
  if grown.length > maxMessages then pyTailSlice grown maxMessages else grown

/-! ## CustomCommands.get_command (src/assistant/commands.py lines 36-57) -/

/-- First binding of a key in an association list (`dict` membership plus
    indexing: keys are unique in a Python dict, so first = only). -/
def lookupA : List (List Char × α) → List Char → Option α
  | [], _ => none
  | kv :: rest, k => if kv.1 = k then some kv.2 else lookupA rest k

/-- The phrase normalisation `phrase.lower().strip()`. -/
def normPhrase (phrase : List Char) : List Char :=
  pyStripL (pyLowerL phrase)

namespace CustomCommands

/-- `CustomCommands.get_command`: exact key match first, then the first
    registered name (insertion order) contained in the phrase. -/
def get_command (cmds : List (List Char × α)) (phrase : List Char) : Option α :=
  let p := normPhrase phrase
  match lookupA cmds p with
  | some actions => some actions
  | none => (cmds.find? (fun kv => strContainsB p kv.1)).map (fun kv => kv.2)

end CustomCommands

/-! ## TimerSkill._parse_duration (src/skills/timer.py lines 62-81) -/

/-- `re.search(r"(\d+)\s*LIT...", cmd)` for the duration patterns: the
    leftmost position where a digit group, optional whitespace and the
    literal unit prefix match; returns the captured number.  (The trailing
    `s?` of each pattern never affects the captured group, so matching the
    unit prefix suffices; and since each unit literal starts with a letter,
    maximal-munch digits and whitespace agree with regex backtracking.) -/
def searchNum (lit : List Char) : List Char → Option Nat
  | [] => none
  | c :: cs =>
    let here :=
      if c.isDigit then
        let ds := (c :: cs).takeWhile Char.isDigit
        let rest := ((c :: cs).dropWhile Char.isDigit).dropWhile isPyWs
        if isPreB lit rest then some (natOfDigits ds) else none
      else none
    match here with
    | some n => some n
    | none => searchNum lit cs

namespace TimerSkill

/-- `TimerSkill._parse_duration`: each of the five patterns is searched
    independently on the lowercased command and every hit is added to the
    total; the result is `None` when the total is zero. -/
def parse_duration (command : List Char) : Option Nat :=
  let cmd := pyLowerL command
  let patterns : List (List Char × Nat) :=
    [("hour".toList, 3600), ("minute".toList, 60), ("second".toList, 1),
     ("min".toList, 60), ("sec".toList, 1)]
  let total := patterns.foldl
    (fun acc p => acc + ((searchNum p.1 cmd).getD 0) * p.2) 0
  if total > 0 then some total else none

end TimerSkill

/-! ## KnowledgeSkill (src/skills/knowledge.py) -/

/-- A skill result dict: `action`, optional `target`, `response`
    (skills always fill these with strings or `None`). -/
structure SAction where
  action : List Char
  target : Option (List Char)
  response : List Char
  deriving DecidableEq

/-- The stored facts: key/value pairs in insertion order (a JSON-backed
    Python dict). -/
def Facts := List (List Char × List Char)

/-- Python dict assignment `facts[key] = value`: overwrite in place if the
    key exists, else append. -/
def upsert (facts : Facts) (key value : List Char) : Facts :=
  match facts with
  | [] => [(key, value)]
  | kv :: rest => if kv.1 = key then (key, value) :: rest else kv :: upsert rest key value

/-- Python dict deletion `del facts[key]`. -/
def removeKey (facts : Facts) (key : List Char) : Facts :=
  facts.filter (fun kv => ¬ kv.1 = key)

namespace KnowledgeSkill

/-- `KnowledgeSkill.triggers` contained in the lowercased command. -/
def can_handle (commandLower : List Char) : Bool :=
  strContainsB commandLower "remember".toList ||
  strContainsB commandLower "forget".toList ||
  strContainsB commandLower "what is my".toList ||
  strContainsB commandLower "what's my".toList ||
  strContainsB commandLower "do you know my".toList ||
  strContainsB commandLower "recall".toList

/-- `KnowledgeSkill._remember`.  `saveOk = false` models `self._save()`
    raising an `OSError`; `_remember` has no handler, so the exception
    propagates (`Except.error`). -/
def remember (facts : Facts) (saveOk : Bool) (command : List Char) :
    Except (List Char) (Facts × SAction) :=
  let cl := pyLowerL command
  let text := pyReplaceL (pyReplaceL cl "remember that ".toList []) "remember ".toList []
  if strContainsB text " is ".toList then
    let parts := pySplit1 text " is ".toList
    let key := pyStripL (pyReplaceL (parts.getD 0 []) "my ".toList [])
    let value := pyStripL (parts.getD 1 [])
    if saveOk then
      Except.ok (upsert facts key value,
        { action := "speak".toList, target := none
          response := "Got it! I'll remember that your ".toList ++ key ++
                      " is ".toList ++ value ++ ".".toList })
    else Except.error "OSError".toList
  else
    Except.ok (facts,
      { action := "speak".toList, target := none
        response := "Try saying 'remember my favorite color is blue'.".toList })

/-- `KnowledgeSkill._forget`: scan stored keys in order, delete and save on
    the first key related to the phrase by substring containment either way. -/
def forget (facts : Facts) (saveOk : Bool) (command : List Char) :
    Except (List Char) (Facts × SAction) :=
  let cl := pyReplaceL (pyReplaceL (pyLowerL command) "forget my ".toList []) "forget ".toList []
  match facts.find? (fun kv => strContainsB cl kv.1 || strContainsB kv.1 cl) with
  | some kv =>
    if saveOk then
      Except.ok (removeKey facts kv.1,
        { action := "speak".toList, target := none
          response := "Done, I've forgotten your ".toList ++ kv.1 ++ ".".toList })
    else Except.error "OSError".toList
  | none =>
    Except.ok (facts,
      { action := "speak".toList, target := none
        response := "I don't have that information stored.".toList })

/-- The query-extraction loop of `_recall`: the first matching pattern
    determines the query; the for-else leaves it empty. -/
def recallQuery (cl : List Char) : List Char :=
  let pats := ["what is my ".toList, "what's my ".toList, "do you know my ".toList,
               "recall my ".toList, "recall ".toList]
  match pats.find? (fun p => strContainsB cl p) with
  | some p => ((pyStripL ((pySplitL cl p).getD 1 [])).reverse.dropWhile (fun c => c = '?')).reverse
  | none => []

/-- `KnowledgeSkill._recall` (no persistence, total). -/
def recallA (facts : Facts) (command : List Char) : SAction :=
  let cl := pyLowerL command
  let query := recallQuery cl
  match facts.find? (fun kv => strContainsB query kv.1 || strContainsB kv.1 query) with
  | some kv =>
    { action := "speak".toList, target := none
      response := "Your ".toList ++ kv.1 ++ " is ".toList ++ kv.2 ++ ".".toList }
  | none =>
    { action := "speak".toList, target := none
      response := "I don't know your ".toList ++ query ++ ". Tell me to remember it!".toList }

/-- `KnowledgeSkill.execute`: route on keyword containment in the
    lowercased command. -/
def execute (facts : Facts) (saveOk : Bool) (command : List Char) :
    Except (List Char) (Facts × SAction) :=
  let cl := pyLowerL command
  if strContainsB cl "remember".toList then remember facts saveOk command
  else if strContainsB cl "forget".toList then forget facts saveOk command
  else if strContainsB cl "what is my".toList || strContainsB cl "what's my".toList ||
          strContainsB cl "do you know my".toList || strContainsB cl "recall".toList then
    Except.ok (facts, recallA facts command)
  else
    Except.ok (facts,
      { action := "speak".toList, target := none
        response := "I'm not sure what you want me to do with that information.".toList })

end KnowledgeSkill

/-! ## SkillManager (src/skills/__init__.py lines 62-75) -/

/-- A skill as the dispatcher sees it: `can_handle` on the lowercased
    command and an `execute` that may raise (the manager wraps neither
    call in a handler). -/
def SkillIface := (List Char → Bool) × (List Char → Except (List Char) SAction)

namespace SkillManager

/-- `SkillManager.execute`: the first registered skill whose `can_handle`
    accepts the lowercased command runs on the original command; a raised
    exception passes through unhandled. -/
def execute (skills : List SkillIface) (command : List Char) :
    Except (List Char) (Option SAction) :=
  match skills.find? (fun sk => sk.1 (pyLowerL command)) with
  | some sk => (sk.2 command).map some
  | none => Except.ok none

end SkillManager

/-! ## Executor (src/assistant/executor.py lines 68-103) and the
    orchestrator Simon._execute_command (src/main.py lines 235-257) -/

/-- The value stored under a dict key such as `target`: absent/None, a
    string, or (for composite actions) a list of sub-action dicts, each
    flattened to its `(sub_action["action"], sub_action.get("target"))`
    pair (the `get` default None is a `vnone` entry). -/
inductive TargetV where
  | vnone
  | vstr (s : List Char)
  | vlist (l : List (List Char × TargetV))

/-- An action dict as the orchestrator receives it from `Brain.process`. -/
structure ActionO where
  action : List Char
  target : TargetV
  response : List Char

/-- The keys of `Executor.execute`'s `action_map`. -/
def executorKinds : List (List Char) :=
  ["open_app".toList, "open_file".toList, "open_url".toList,
   "search_google".toList, "search_youtube".toList,
   "volume_up".toList, "volume_down".toList, "volume_mute".toList,
   "volume_set".toList, "media_play_pause".toList, "media_next".toList,
   "media_prev".toList, "lock_screen".toList, "screenshot".toList,
   "shutdown".toList, "restart".toList, "sleep".toList, "speak".toList]

namespace Executor

/-- `Executor.execute`: dispatch through `action_map`.  The OS handlers
    are modelled by the oracle `osExec` (each swallows its own errors and
    returns a boolean); the `"speak"` handler is `lambda t: True`; an
    unknown kind returns `False` with no handler called. -/
def execute (osExec : List Char → TargetV → Bool) (action : List Char) (target : TargetV) : Bool :=
  if action ∈ executorKinds then
    (if action = "speak".toList then true else osExec action target)
  else false

end Executor

namespace Simon

/-- `Simon._execute_command`, returning the executor call trace (the
    `(action, target)` argument pairs, in call order) and the spoken
    response.  A composite action runs every sub-action unconditionally,
    ignoring each boolean result, and speaks its own response; any other
    non-speak action runs once and, on failure, has its response replaced
    by the apology.  `none` models the `TypeError` of iterating a
    non-list `target` of a `"custom"` action. -/
def execute_command (osExec : List Char → TargetV → Bool) (a : ActionO) :
    Option (List (List Char × TargetV) × List Char) :=
  if a.action = "custom".toList then
    match a.target with
    | TargetV.vlist subs =>
      some (subs.map (fun sa => (sa.1, sa.2)), a.response)
    | _ => none
  else if ¬ a.action = "speak".toList then
    some ([(a.action, a.target)],
      if Executor.execute osExec a.action a.target then a.response
      else "Sorry, I couldn't do that".toList)
  else
    some ([], a.response)

end Simon

/-! ## Brain.process (src/assistant/brain.py lines 87-156) -/

/-- The outcome of the `ollama` chat call: a reply text, an
    `ollama.ResponseError`, or any other exception. -/
inductive LlmOutcome where
  | ok (content : List Char)
  | respErr (e : List Char)
  | exn (e : List Char)

/-- Python truthiness of `custom_actions` (`None` and `[]` are falsy). -/
def customTruthy : Option (List Json) → Bool
  | none => false
  | some l => ¬ l.isEmpty

namespace Brain

/-- `Brain.process`.  Custom commands are checked first (with Python
    truthiness), then the skills (given here as an oracle result), and only
    then is the user message appended to memory and the LLM consulted; on a
    transport error the handler returns a speak action and no assistant
    message is stored.  `none` models an uncaught exception inside
    `_parse_response`.  Sub-action lists are carried as JSON values, and a
    skill or error result is represented in the same shape. -/
def process (cmds : List (List Char × List Json)) (skillRes : Option JAction)
    (llm : LlmOutcome) (mem : List PyMessage) (ts : Nat) (command : List Char) :
    Option (JAction × List PyMessage) :=
  let custom := CustomCommands.get_command cmds command
  if customTruthy custom then
    some ({ action := Json.str "custom".toList
            target := Json.arr (custom.getD [])
            response := Json.str ("Executing ".toList ++ command) }, mem)
  else
    match skillRes with
    | some a => some (a, mem)
    | none =>
      let mem1 := pyAddMessage 30 mem { role := "user".toList, content := Json.str command, ts := ts }
      match llm with
      | LlmOutcome.ok content =>
        (parseResponseL content).map (fun a =>
          (a, pyAddMessage 30 mem1 { role := "assistant".toList, content := a.response, ts := ts }))
      | LlmOutcome.respErr e =>
        some ({ action := Json.str "speak".toList, target := Json.null
                response := Json.str ("Sorry, Ollama error: ".toList ++ e) }, mem1)
      | LlmOutcome.exn e =>
        some ({ action := Json.str "speak".toList, target := Json.null
                response := Json.str ("Sorry, something went wrong: ".toList ++ e) }, mem1)

end Brain

/-! ## Spec-side shapes for the classifier reply (claims C1, C2) -/

/-- The reply is plain valid JSON: its stripped text contains no fence
    marker and decodes to an object. -/
def plainJsonShape (s : String) (fields : List (List Char × Json)) : Prop :=
  strContainsB (pyStripL s.toList) fence3 = false ∧
  jsonParse (pyStripL s.toList) = some (Json.obj fields)

/-- The reply is a fenced code block with the `json` language tag whose
    backtick-free payload decodes to an object. -/
def fencedJsonShape (s : String) (fields : List (List Char × Json)) : Prop :=
  ∃ body : List Char, pyStripL s.toList = jsonFence ++ (body ++ fence3) ∧
    backq ∉ body ∧ jsonParse (pyStripL body) = some (Json.obj fields)

/-- The reply is a fenced code block without a language tag (so the tagged
    marker does not occur) whose backtick-free payload decodes to an object. -/
def fencedBareShape (s : String) (fields : List (List Char × Json)) : Prop :=
  ∃ body : List Char, pyStripL s.toList = fence3 ++ (body ++ fence3) ∧
    backq ∉ body ∧ strContainsB (pyStripL s.toList) jsonFence = false ∧
    jsonParse (pyStripL body) = some (Json.obj fields)

/-- Observe the `response` entry of a parse result as a character list
    (used to exhibit concrete disagreements). -/
def respProbe (o : Option JAction) : List Char :=
  match o with
  | some a =>
    match a.response with
    | Json.str s => s
    | _ => []
  | none => []

/-! ## Lemmas about stripping -/

lemma length_dropWhile_le (p : α → Bool) (l : List α) :
    (l.dropWhile p).length ≤ l.length := by
  induction l with
  | nil => simp
  | cons c cs ih =>
    rw [List.dropWhile_cons]
    split
    · exact le_trans ih (Nat.le_succ _)
    · simp

lemma dropWhile_idem (p : α → Bool) (l : List α) :
    (l.dropWhile p).dropWhile p = l.dropWhile p := by
  induction l with
  | nil => rfl
  | cons c cs ih =>
    by_cases h : p c
    · simp [List.dropWhile_cons, h, ih]
    · simp [List.dropWhile_cons, h]

lemma dropWhile_eq_self_of_append (p : α → Bool) (l y : List α)
    (h : List.dropWhile p (l ++ y) = l ++ y) : l.dropWhile p = l := by
  cases l with
  | nil => rfl
  | cons c cs =>
    have hc : ¬ p c = true := by
      intro hpc
      have hlen := congrArg List.length h
      rw [List.cons_append, List.dropWhile_cons, if_pos hpc] at hlen
      have hle := length_dropWhile_le p (cs ++ y)
      simp [List.length_append] at hlen hle
      omega
    rw [List.dropWhile_cons, if_neg hc]

lemma rdropWs_concat (l : List Char) (x : Char) :
    rdropWs (l ++ [x]) = if isPyWs x then rdropWs l else l ++ [x] := by
  unfold rdropWs
  rw [List.reverse_append]
  simp only [List.reverse_cons, List.reverse_nil, List.nil_append, List.singleton_append,
    List.dropWhile_cons]
  split
  · rfl
  · simp

lemma dropWhile_rdropWs : ∀ l : List Char, l.dropWhile isPyWs = l →
    (rdropWs l).dropWhile isPyWs = rdropWs l := by
  intro l
  induction l using List.reverseRecOn with
  | nil => intro _; rfl
  | append_singleton l x ih =>
    intro h
    rw [rdropWs_concat]
    by_cases hx : isPyWs x
    · rw [if_pos hx]
      exact ih (dropWhile_eq_self_of_append isPyWs l [x] h)
    · rw [if_neg hx]
      exact h

lemma rdropWs_idem (l : List Char) : rdropWs (rdropWs l) = rdropWs l := by
  unfold rdropWs
  rw [List.reverse_reverse, dropWhile_idem]

lemma pyStripL_idem (l : List Char) : pyStripL (pyStripL l) = pyStripL l := by
  unfold pyStripL
  rw [dropWhile_rdropWs _ (dropWhile_idem _ _), rdropWs_idem]

/-! ## Lemmas about substring search and splitting -/

lemma isPreB_append (pat r : List Char) : isPreB pat (pat ++ r) = true := by
  simp [isPreB, List.take_left]

lemma isPreB_false_of_head (c0 c : Char) (p' cs : List Char) (h : c ≠ c0) :
    isPreB (c0 :: p') (c :: cs) = false := by
  simp [isPreB, List.take_succ_cons, h]

lemma findPat_none_of_head_notMem (c0 : Char) (p' l : List Char) (hne : c0 ∉ l) :
    findPat (c0 :: p') l = none := by
  induction l with
  | nil => simp [findPat]
  | cons c cs ih =>
    simp only [List.mem_cons, not_or] at hne
    rw [findPat, isPreB_false_of_head c0 c p' cs (fun e => hne.1 e.symm)]
    simp [ih hne.2]

lemma findPat_none_of_short (pat l : List Char) (h : l.length < pat.length) :
    findPat pat l = none := by
  induction l with
  | nil =>
    have hp : ¬ pat = [] := by intro e; simp [e] at h
    simp [findPat, hp]
  | cons c cs ih =>
    have hp : isPreB pat (c :: cs) = false := by
      simp only [isPreB, decide_eq_false_iff_not]
      intro he
      have hl := congrArg List.length he
      rw [List.length_take] at hl
      simp only [List.length_cons] at hl h
      omega
    rw [findPat, hp]
    have hlt : cs.length < pat.length := by
      simp only [List.length_cons] at h
      omega
    simp [ih hlt]

lemma findPat_boundary (c0 : Char) (p' b : List Char) : ∀ a : List Char, c0 ∉ a →
    findPat (c0 :: p') (a ++ (c0 :: p') ++ b) = some a.length := by
  intro a
  induction a with
  | nil =>
    intro _
    have : (([] : List Char) ++ (c0 :: p') ++ b) = (c0 :: p') ++ b := by simp
    rw [this]
    have hpre : isPreB (c0 :: p') ((c0 :: p') ++ b) = true := isPreB_append _ _
    cases hcons : (c0 :: p') ++ b with
    | nil => simp at hcons
    | cons x xs =>
      rw [findPat, ← hcons, hpre]
      simp
  | cons x a' ih =>
    intro ha
    simp only [List.mem_cons, not_or] at ha
    have hx : x ≠ c0 := fun e => ha.1 e.symm
    have : ((x :: a') ++ (c0 :: p') ++ b) = x :: (a' ++ (c0 :: p') ++ b) := by simp
    rw [this, findPat]
    have hpf : isPreB (c0 :: p') (x :: (a' ++ (c0 :: p') ++ b)) = false :=
      isPreB_false_of_head c0 x p' _ hx
    rw [hpf]
    have ih' := ih ha.2
    simp only [List.cons_append, List.append_assoc] at ih' ⊢
    simp [ih']

lemma findPat_none_append_short (c0 : Char) (p' body tr : List Char)
    (hb : c0 ∉ body) (htr : tr.length < p'.length + 1) :
    findPat (c0 :: p') (body ++ tr) = none := by
  induction body with
  | nil => simpa using findPat_none_of_short (c0 :: p') tr (by simpa using htr)
  | cons x b' ih =>
    simp only [List.mem_cons, not_or] at hb
    have : ((x :: b') ++ tr) = x :: (b' ++ tr) := by simp
    rw [this, findPat, isPreB_false_of_head c0 x p' _ (fun e => hb.1 e.symm)]
    simp [ih hb.2]

lemma findPat_some_exists (pat : List Char) : ∀ (l : List Char) (i : Nat),
    findPat pat l = some i → ∃ pre post, l = pre ++ pat ++ post ∧ pre.length = i := by
  intro l
  induction l with
  | nil =>
    intro i h
    by_cases hp : pat = []
    · subst hp
      simp [findPat] at h
      exact ⟨[], [], by simp, by simp [h]⟩
    · simp [findPat, hp] at h
  | cons c cs ih =>
    intro i h
    by_cases hpre : isPreB pat (c :: cs) = true
    · rw [findPat, hpre] at h
      simp at h
      refine ⟨[], List.drop pat.length (c :: cs), ?_, by simp [h]⟩
      have := List.take_append_drop pat.length (c :: cs)
      simp only [isPreB, decide_eq_true_eq] at hpre
      rw [← this, hpre]
      simp
    · rw [findPat, Bool.eq_false_iff.mpr hpre] at h
      simp only [Bool.false_eq_true, if_false, Option.map_eq_some'] at h
      obtain ⟨j, hj, hij⟩ := h
      obtain ⟨pre, post, heq, hlen⟩ := ih j hj
      exact ⟨c :: pre, post, by simp [heq], by simp [hlen, hij]⟩

lemma findPat_none_not_occ (pat : List Char) (hpat : pat ≠ []) :
    ∀ l : List Char, findPat pat l = none → ∀ pre post, l ≠ pre ++ pat ++ post := by
  intro l
  induction l with
  | nil =>
    intro _ pre post heq
    have : pat = [] := by
      have := congrArg List.length heq
      simp [List.length_append] at this
      exact List.length_eq_zero.mp (by omega)
    exact hpat this
  | cons c cs ih =>
    intro h pre post heq
    have hsplit : isPreB pat (c :: cs) = false ∧ findPat pat cs = none := by
      rw [findPat] at h
      constructor
      · by_contra hb
        rw [Bool.not_eq_false] at hb
        rw [hb] at h
        simp at h
      · by_cases hb : isPreB pat (c :: cs) = true
        · rw [hb] at h; simp at h
        · rw [Bool.eq_false_iff.mpr hb] at h
          simpa using h
    cases pre with
    | nil =>
      simp only [List.nil_append] at heq
      have : isPreB pat (c :: cs) = true := by
        rw [heq]
        exact isPreB_append pat post
      rw [this] at hsplit
      simp at hsplit
    | cons x pre' =>
      have hx : (x :: pre') ++ pat ++ post = x :: (pre' ++ pat ++ post) := by simp
      rw [hx] at heq
      have := List.cons.injEq c cs x (pre' ++ pat ++ post) ▸ heq
      rw [List.cons.injEq] at heq
      exact ih hsplit.2 pre' post heq.2

lemma pySplitGo_of_none (pat : List Char) (f : Nat) (l : List Char)
    (h : findPat pat l = none) : pySplitGo pat (f + 1) l = [l] := by
  simp [pySplitGo, h]

lemma pySplitL_of_none (l pat : List Char) (h : findPat pat l = none) :
    pySplitL l pat = [l] :=
  pySplitGo_of_none pat l.length l h

lemma pySplitGo_two (pat : List Char) (f : Nat) (a b : List Char)
    (h1 : findPat pat (a ++ pat ++ b) = some a.length)
    (h2 : findPat pat b = none) :
    pySplitGo pat (f + 2) (a ++ pat ++ b) = [a, b] := by
  rw [pySplitGo, h1]
  have hassoc : a ++ pat ++ b = a ++ (pat ++ b) := by simp [List.append_assoc]
  have htake : (a ++ pat ++ b).take a.length = a := by
    rw [hassoc]; exact List.take_left a (pat ++ b)
  have hdrop : (a ++ pat ++ b).drop (a.length + pat.length) = b := by
    have : a.length + pat.length = (a ++ pat).length := (List.length_append a pat).symm
    rw [this]
    exact List.drop_left (a ++ pat) b
  show (a ++ pat ++ b).take a.length ::
      pySplitGo pat (f + 1) ((a ++ pat ++ b).drop (a.length + pat.length)) = [a, b]
  rw [htake, hdrop, pySplitGo_of_none pat f b h2]

lemma pySplitL_two (pat a b : List Char) (hpat : pat ≠ [])
    (h1 : findPat pat (a ++ pat ++ b) = some a.length)
    (h2 : findPat pat b = none) :
    pySplitL (a ++ pat ++ b) pat = [a, b] := by
  have hlen : 1 ≤ pat.length := List.length_pos.mpr hpat
  have hl : (a ++ pat ++ b).length + 1 = ((a ++ pat ++ b).length - 1) + 2 := by
    simp only [List.length_append]
    omega
  unfold pySplitL
  rw [hl]
  exact pySplitGo_two pat _ a b h1 h2

lemma pySplitGo_three (pat : List Char) (f : Nat) (a mid : List Char) (hpat : pat ≠ [])
    (h1 : findPat pat (a ++ pat ++ (mid ++ pat)) = some a.length)
    (h2 : findPat pat (mid ++ pat) = some mid.length) :
    pySplitGo pat (f + 3) (a ++ pat ++ (mid ++ pat)) = [a, mid, []] := by
  rw [pySplitGo, h1]
  have hassoc : a ++ pat ++ (mid ++ pat) = a ++ (pat ++ (mid ++ pat)) := by
    simp [List.append_assoc]
  have htake : (a ++ pat ++ (mid ++ pat)).take a.length = a := by
    rw [hassoc]; exact List.take_left a _
  have hdrop : (a ++ pat ++ (mid ++ pat)).drop (a.length + pat.length) = mid ++ pat := by
    have : a.length + pat.length = (a ++ pat).length := (List.length_append a pat).symm
    rw [this]
    exact List.drop_left (a ++ pat) (mid ++ pat)
  show (a ++ pat ++ (mid ++ pat)).take a.length ::
      pySplitGo pat (f + 2) ((a ++ pat ++ (mid ++ pat)).drop (a.length + pat.length)) =
      [a, mid, []]
  rw [htake, hdrop, pySplitGo, h2]
  have htake2 : (mid ++ pat).take mid.length = mid := List.take_left mid pat
  have hdrop2 : (mid ++ pat).drop (mid.length + pat.length) = [] := by
    have : mid.length + pat.length = (mid ++ pat).length := (List.length_append mid pat).symm
    rw [this]
    exact List.drop_length _
  show a :: ((mid ++ pat).take mid.length ::
      pySplitGo pat (f + 1) ((mid ++ pat).drop (mid.length + pat.length))) = [a, mid, []]
  rw [htake2, hdrop2, pySplitGo_of_none pat f [] (by simp [findPat, hpat])]

lemma pySplitL_three (pat a mid : List Char) (hpat : pat ≠ [])
    (h1 : findPat pat (a ++ pat ++ (mid ++ pat)) = some a.length)
    (h2 : findPat pat (mid ++ pat) = some mid.length) :
    pySplitL (a ++ pat ++ (mid ++ pat)) pat = [a, mid, []] := by
  have hlen : 1 ≤ pat.length := List.length_pos.mpr hpat
  have hl : (a ++ pat ++ (mid ++ pat)).length + 1 =
      ((a ++ pat ++ (mid ++ pat)).length - 2) + 3 := by
    simp only [List.length_append]
    omega
  unfold pySplitL
  rw [hl]
  exact pySplitGo_three pat _ a mid hpat h1 h2

lemma jsonFence_cons : jsonFence = backq :: "``json".toList := by decide

lemma fence3_cons : fence3 = backq :: "``".toList := by decide

lemma strContainsB_jsonFence_false (c : List Char) (h : strContainsB c fence3 = false) :
    strContainsB c jsonFence = false := by
  rw [strContainsB] at h ⊢
  have hf : findPat fence3 c = none := by
    cases hx : findPat fence3 c with
    | none => rfl
    | some i => rw [hx] at h; simp at h
  cases hy : findPat jsonFence c with
  | none => simp
  | some i =>
    obtain ⟨pre, post, heq, _⟩ := findPat_some_exists jsonFence c i hy
    have hjf : jsonFence = fence3 ++ "json".toList := by decide
    rw [hjf] at heq
    have hocc : c = pre ++ fence3 ++ ("json".toList ++ post) := by
      rw [heq]; simp [List.append_assoc]
    exact absurd hocc
      (findPat_none_not_occ fence3 (by decide) c hf pre ("json".toList ++ post))

lemma fenceExtract_nofence (c : List Char) (h : strContainsB c fence3 = false) :
    fenceExtractL c = c := by
  have hj := strContainsB_jsonFence_false c h
  simp [fenceExtractL, h, hj]

lemma fenceExtract_tagged (body : List Char) (hb : backq ∉ body) :
    fenceExtractL (jsonFence ++ (body ++ fence3)) = body := by
  have h1 : findPat jsonFence (jsonFence ++ (body ++ fence3)) = some 0 := by
    have := findPat_boundary backq "``json".toList (body ++ fence3) [] (by simp)
    rw [← jsonFence_cons] at this
    simpa using this
  have hcont : strContainsB (jsonFence ++ (body ++ fence3)) jsonFence = true := by
    rw [strContainsB, h1]; rfl
  have h2 : findPat jsonFence (body ++ fence3) = none := by
    have := findPat_none_append_short backq "``json".toList body fence3 hb (by decide)
    rw [← jsonFence_cons] at this
    exact this
  have hsplit1 : pySplitL (jsonFence ++ (body ++ fence3)) jsonFence = [[], body ++ fence3] := by
    have := pySplitL_two jsonFence [] (body ++ fence3) (by decide) (by simpa using h1) h2
    simpa using this
  have h3 : findPat fence3 (body ++ fence3) = some body.length := by
    have := findPat_boundary backq "``".toList [] body hb
    rw [← fence3_cons] at this
    simpa using this
  have hsplit2 : pySplitL (body ++ fence3) fence3 = [body, []] := by
    have := pySplitL_two fence3 body [] (by decide) (by simpa using h3) (by decide)
    simpa using this
  unfold fenceExtractL
  rw [hcont]
  simp only [if_true]
  rw [hsplit1]
  show (pySplitL (body ++ fence3) fence3).getD 0 [] = body
  rw [hsplit2]
  rfl

lemma fenceExtract_bare (body : List Char) (hb : backq ∉ body)
    (hnj : strContainsB (fence3 ++ (body ++ fence3)) jsonFence = false) :
    fenceExtractL (fence3 ++ (body ++ fence3)) = body := by
  have h1 : findPat fence3 (fence3 ++ (body ++ fence3)) = some 0 := by
    have := findPat_boundary backq "``".toList (body ++ fence3) [] (by simp)
    rw [← fence3_cons] at this
    simpa using this
  have hcont : strContainsB (fence3 ++ (body ++ fence3)) fence3 = true := by
    rw [strContainsB, h1]; rfl
  have h2 : findPat fence3 (body ++ fence3) = some body.length := by
    have := findPat_boundary backq "``".toList [] body hb
    rw [← fence3_cons] at this
    simpa using this
  have hsplit1 : pySplitL (fence3 ++ (body ++ fence3)) fence3 = [[], body, []] := by
    have := pySplitL_three fence3 [] body (by decide) (by simpa using h1) (by simpa using h2)
    simpa using this
  have hnone : findPat fence3 body = none := by
    rw [fence3_cons]
    exact findPat_none_of_head_notMem backq "``".toList body hb
  have hsplit2 : pySplitL body fence3 = [body] := pySplitL_of_none body fence3 hnone
  unfold fenceExtractL
  rw [hnj]
  simp only [Bool.false_eq_true, if_false]
  rw [hcont]
  simp only [if_true]
  rw [hsplit1]
  show (pySplitL body fence3).getD 0 [] = body
  rw [hsplit2]
  rfl

/-! ## Claim C1 -/

/-- C1 (amended): for every LLM reply that is valid JSON decoding to an
    object — given plainly with no stray fence marker in the stripped text,
    or wrapped in a fenced code block (with or without the json language
    tag) around a backtick-free payload — `Brain._parse_response` returns
    the Action whose `action`, `target` and `response` are the JSON fields
    verbatim, with the defaults `"speak"`, null and `"Done"` when a field
    is missing. -/
theorem brain_parse_response_fields_verbatim (s : String)
    (fields : List (List Char × Json))
    (h : plainJsonShape s fields ∨ fencedJsonShape s fields ∨ fencedBareShape s fields) :
    Brain.parse_response s = some (mkParsedAction fields) := by
  rcases h with ⟨hnf, hparse⟩ | ⟨body, hshape, hb, hparse⟩ | ⟨body, hshape, hb, hnj, hparse⟩
  · simp only [Brain.parse_response, parseResponseL]
    rw [fenceExtract_nofence _ hnf, pyStripL_idem, hparse]
  · simp only [Brain.parse_response, parseResponseL]
    rw [hshape, fenceExtract_tagged body hb, hparse]
  · rw [hshape] at hnj
    simp only [Brain.parse_response, parseResponseL]
    rw [hshape, fenceExtract_bare body hb hnj, hparse]

/-- Witness for C1 at a concrete plain JSON reply. -/
theorem brain_parse_response_fields_verbatim_witness :
    Brain.parse_response
      "\x7b\"action\": \"open_app\", \"target\": \"chrome\", \"response\": \"Opening Chrome\"\x7d" =
    some (mkParsedAction
      [("action".toList, Json.str "open_app".toList),
       ("target".toList, Json.str "chrome".toList),
       ("response".toList, Json.str "Opening Chrome".toList)]) :=
  brain_parse_response_fields_verbatim _ _ (Or.inl ⟨rfl, rfl⟩)

/-- C1 counterexample: this reply is valid JSON carrying all three fields,
    yet because its `response` value contains a triple backtick the code
    splits on the fence marker and returns mangled text instead of the
    fields verbatim. -/
theorem brain_parse_response_backtick_counterexample :
    jsonParse (pyStripL
      "\x7b\"action\": \"open_app\", \"target\": \"chrome\", \"response\": \"a```b\"\x7d".toList) =
      some (Json.obj
        [("action".toList, Json.str "open_app".toList),
         ("target".toList, Json.str "chrome".toList),
         ("response".toList, Json.str "a```b".toList)]) ∧
    respProbe (Brain.parse_response
      "\x7b\"action\": \"open_app\", \"target\": \"chrome\", \"response\": \"a```b\"\x7d") ≠
    respProbe (some (mkParsedAction
        [("action".toList, Json.str "open_app".toList),
         ("target".toList, Json.str "chrome".toList),
         ("response".toList, Json.str "a```b".toList)])) :=
  ⟨rfl, by decide⟩

/-! ## Claim C2 -/

/-- C2 (amended): for every LLM reply whose stripped text contains no fence
    marker and is not valid JSON, `_parse_response` returns a speak action
    with null target whose response is the stripped raw reply, or the
    fallback sentence when the stripped reply is empty.  (When a fence
    marker is present, the extracted fence content takes the place of the
    stripped reply — see the counterexample.) -/
theorem brain_parse_response_invalid_json_fallback (s : String)
    (h1 : strContainsB (pyStripL s.toList) fence3 = false)
    (h2 : jsonParse (pyStripL s.toList) = none) :
    Brain.parse_response s =
      some { action := Json.str "speak".toList
             target := Json.null
             response := Json.str (if pyStripL s.toList = [] then
                 "I didn't understand that.".toList
               else pyStripL s.toList) } := by
  simp only [Brain.parse_response, parseResponseL]
  rw [fenceExtract_nofence _ h1, pyStripL_idem, h2]

/-- Witness for C2 at a concrete non-JSON reply. -/
theorem brain_parse_response_invalid_json_fallback_witness :
    Brain.parse_response "  hello there  " =
      some { action := Json.str "speak".toList
             target := Json.null
             response := Json.str "hello there".toList } :=
  brain_parse_response_invalid_json_fallback "  hello there  " rfl rfl

/-- C2 counterexample: `"```oops```"` is not valid JSON and is nonempty,
    but the parsed response is the fence-extracted text `"oops"`, not the
    trimmed raw reply. -/
theorem brain_parse_response_fence_fallback_counterexample :
    jsonParse (pyStripL "```oops```".toList) = none ∧
    respProbe (Brain.parse_response "```oops```") = "oops".toList ∧
    respProbe (Brain.parse_response "```oops```") ≠ pyStripL "```oops```".toList :=
  ⟨rfl, rfl, by decide⟩

/-! ## Claim C3 -/

/-- C3: the duration parser double-counts.  The pattern list searches both
    the long and the abbreviated unit spellings independently and sums every
    hit, and the abbreviated regexes also match inside the long words:
    "5 minutes" yields 600 seconds (not 300) and "1 hour 30 minutes" yields
    7200 (not 5400); only the no-unit case returns None as specified. -/
theorem timer_parse_duration_double_count :
    TimerSkill.parse_duration "5 minutes".toList = some 600 ∧
    TimerSkill.parse_duration "1 hour 30 minutes".toList = some 7200 ∧
    TimerSkill.parse_duration "set a timer please".toList = none :=
  ⟨rfl, rfl, rfl⟩

/-! ## Claim C4 -/

lemma lookupA_of_mem (cmds : List (List Char × α)) (k : List Char) (v : α)
    (hnd : (cmds.map Prod.fst).Nodup) (hmem : (k, v) ∈ cmds) :
    lookupA cmds k = some v := by
  induction cmds with
  | nil => simp at hmem
  | cons kv rest ih =>
    simp only [List.map_cons, List.nodup_cons] at hnd
    rcases List.mem_cons.mp hmem with heq | hrest
    · rw [← heq]
      simp [lookupA]
    · have hne : ¬ kv.1 = k := by
        intro he
        exact hnd.1 (he ▸ (List.mem_map.mpr ⟨(k, v), hrest, rfl⟩))
      simp only [lookupA, if_neg hne]
      exact ih hnd.2 hrest

lemma lookupA_of_not_mem (cmds : List (List Char × α)) (k : List Char)
    (h : k ∉ cmds.map Prod.fst) : lookupA cmds k = none := by
  induction cmds with
  | nil => rfl
  | cons kv rest ih =>
    simp only [List.map_cons, List.mem_cons, not_or] at h
    have hne : ¬ kv.1 = k := by
      intro e
      exact h.1 e.symm
    simp only [lookupA, if_neg hne]
    exact ih h.2

lemma find?_first (p : α → Bool) : ∀ (l : List α) (j : Nat) (hj : j < l.length),
    p (l.get ⟨j, hj⟩) = true →
    (∀ (i : Nat) (hi : i < j), p (l.get ⟨i, lt_trans hi hj⟩) = false) →
    l.find? p = some (l.get ⟨j, hj⟩) := by
  intro l
  induction l with
  | nil => intro j hj; simp at hj
  | cons x xs ih =>
    intro j hj hp hprev
    cases j with
    | zero =>
      simp only [List.get] at hp
      rw [List.find?_cons, hp]
      rfl
    | succ j' =>
      have hx : p x = false := by
        have := hprev 0 (Nat.succ_pos j')
        simpa [List.get] using this
      rw [List.find?_cons, hx]
      have hj' : j' < xs.length := by simpa using hj
      have hp' : p (xs.get ⟨j', hj'⟩) = true := by simpa [List.get] using hp
      have hprev' : ∀ (i : Nat) (hi : i < j'), p (xs.get ⟨i, lt_trans hi hj'⟩) = false := by
        intro i hi
        have := hprev (i + 1) (Nat.succ_lt_succ hi)
        simpa [List.get] using this
      simpa [List.get] using ih j' hj' hp' hprev'

/-- C4: exact (lowercased, stripped) key match returns that command's
    actions; with no exact match, the first registered name contained in
    the phrase wins; with no match at all the lookup returns none. -/
theorem custom_commands_get_command_spec {α : Type} (cmds : List (List Char × α))
    (phrase : List Char) (hnd : (cmds.map Prod.fst).Nodup) :
    (∀ v : α, (normPhrase phrase, v) ∈ cmds →
      CustomCommands.get_command cmds phrase = some v) ∧
    (normPhrase phrase ∉ cmds.map Prod.fst →
      ∀ (j : Nat) (hj : j < cmds.length),
        strContainsB (normPhrase phrase) (cmds.get ⟨j, hj⟩).1 = true →
        (∀ (i : Nat) (hi : i < j),
          strContainsB (normPhrase phrase) (cmds.get ⟨i, lt_trans hi hj⟩).1 = false) →
        CustomCommands.get_command cmds phrase = some (cmds.get ⟨j, hj⟩).2) ∧
    (normPhrase phrase ∉ cmds.map Prod.fst →
      (∀ kv ∈ cmds, strContainsB (normPhrase phrase) kv.1 = false) →
      CustomCommands.get_command cmds phrase = none) := by
  refine ⟨?_, ?_, ?_⟩
  · intro v hmem
    simp only [CustomCommands.get_command]
    rw [lookupA_of_mem cmds _ v hnd hmem]
  · intro hno j hj hcont hprev
    simp only [CustomCommands.get_command]
    rw [lookupA_of_not_mem cmds _ hno]
    rw [find?_first (fun kv => strContainsB (normPhrase phrase) kv.1) cmds j hj hcont hprev]
    rfl
  · intro hno hnone
    simp only [CustomCommands.get_command]
    rw [lookupA_of_not_mem cmds _ hno]
    rw [List.find?_eq_none.mpr (fun kv hkv => by simp [hnone kv hkv])]
    rfl

/-- Witness for C4: substring match picks the first registered command. -/
theorem custom_commands_get_command_spec_witness :
    CustomCommands.get_command
      [("work mode".toList, (1 : Nat)), ("mode".toList, 2)]
      "please start work mode".toList = some 1 :=
  (custom_commands_get_command_spec
      [("work mode".toList, (1 : Nat)), ("mode".toList, 2)]
      "please start work mode".toList (by decide)).2.1
    (by decide) 0 (by decide) (by decide)
    (fun i hi => absurd hi (Nat.not_lt_zero i))

/-! ## Claim C5 -/

/-- C5: a composite (custom) action hands every sub-action, in list order,
    to the Executor — the call trace is exactly the sub-action list for
    every executor oracle, including ones that fail on any prefix — and
    the spoken response is the composite's own response string. -/
theorem composite_executes_all_in_order (osExec : List Char → TargetV → Bool)
    (subs : List (List Char × TargetV)) (resp : List Char) :
    Simon.execute_command osExec
      { action := "custom".toList, target := TargetV.vlist subs, response := resp } =
      some (subs, resp) := by
  simp [Simon.execute_command]

/-! ## Claim C8 -/

/-- C8: for a non-composite, non-speak action the orchestrator issues
    exactly one executor call and speaks the original response on success
    but substitutes the apology when the Executor reports failure; and the
    Executor itself returns false whenever the underlying OS handler fails
    (and for unknown kinds). -/
theorem orchestrator_failure_substitution (osExec : List Char → TargetV → Bool)
    (a : ActionO) (h1 : ¬ a.action = "custom".toList) (h2 : ¬ a.action = "speak".toList) :
    Simon.execute_command osExec a =
      some ([(a.action, a.target)],
        if Executor.execute osExec a.action a.target then a.response
        else "Sorry, I couldn't do that".toList) ∧
    (∀ (k : List Char) (t : TargetV), k ∈ executorKinds → ¬ k = "speak".toList →
      osExec k t = false → Executor.execute osExec k t = false) := by
  constructor
  · unfold Simon.execute_command
    rw [if_neg h1, if_pos h2]
  · intro k t hk hns hfail
    unfold Executor.execute
    rw [if_pos hk, if_neg hns, hfail]

/-- Witness for C8: a failed open_app call yields the apology. -/
theorem orchestrator_failure_substitution_witness :
    Simon.execute_command (fun _ _ => false)
      { action := "open_app".toList, target := TargetV.vstr "chrome".toList
        response := "Opening Chrome".toList } =
      some ([("open_app".toList, TargetV.vstr "chrome".toList)],
        "Sorry, I couldn't do that".toList) :=
  (orchestrator_failure_substitution (fun _ _ => false)
    { action := "open_app".toList, target := TargetV.vstr "chrome".toList
      response := "Opening Chrome".toList } (by decide) (by decide)).1

/-! ## Claim C7 -/

/-- C7 (amended): for every positive bound, folding any sequence of
    appended messages through `Memory._add_message` keeps the history at
    the newest max_messages entries: the result is exactly the suffix of
    the appended sequence, so the length bound and FIFO eviction hold.
    (For max_messages = 0 the Python slice `[-0:]` keeps everything — see
    the counterexample.) -/
theorem memory_bounded_fifo {α : Type} (maxM : Nat) (hpos : 1 ≤ maxM) (ops : List α) :
    (List.foldl (pyAddMessage maxM) [] ops).length ≤ maxM ∧
    List.foldl (pyAddMessage maxM) [] ops = ops.drop (ops.length - maxM) := by
  have key : List.foldl (pyAddMessage maxM) [] ops = ops.drop (ops.length - maxM) := by
    induction ops using List.reverseRecOn with
    | nil => simp
    | append_singleton l m ih =>
      rw [List.foldl_append, List.foldl_cons, List.foldl_nil, ih]
      by_cases hcase : l.length < maxM
      · have hdrop0 : l.length - maxM = 0 := by omega
        have hdrop0' : (l ++ [m]).length - maxM = 0 := by
          simp only [List.length_append, List.length_cons, List.length_nil]
          omega
        rw [hdrop0, hdrop0', List.drop_zero, List.drop_zero]
        unfold pyAddMessage
        rw [if_neg]
        simp only [List.length_append, List.length_cons, List.length_nil]
        omega
      · push_neg at hcase
        have hacc : (l.drop (l.length - maxM)).length = maxM := by
          rw [List.length_drop]
          omega
        unfold pyAddMessage
        rw [if_pos (by simp [List.length_append, hacc])]
        unfold pyTailSlice
        rw [if_neg (by omega)]
        have hlen2 : (l.drop (l.length - maxM) ++ [m]).length - maxM = 1 := by
          simp [List.length_append, hacc]
        rw [hlen2]
        have hstep : (l.drop (l.length - maxM) ++ [m]).drop 1 =
            (l.drop (l.length - maxM)).drop 1 ++ [m] :=
          List.drop_append_of_le_length (by omega)
        rw [hstep, List.drop_drop]
        have hidx : l.length - maxM + 1 = (l ++ [m]).length - maxM := by
          simp only [List.length_append, List.length_cons, List.length_nil]
          omega
        rw [hidx]
        have hle : (l ++ [m]).length - maxM ≤ l.length := by
          simp only [List.length_append, List.length_cons, List.length_nil]
          omega
        exact (List.drop_append_of_le_length hle).symm
  refine ⟨?_, key⟩
  rw [key, List.length_drop]
  omega

/-- Witness for C7 at bound 2 and three pushed entries. -/
theorem memory_bounded_fifo_witness :
    (List.foldl (pyAddMessage 2) ([] : List Nat) [10, 20, 30]).length ≤ 2 ∧
    List.foldl (pyAddMessage 2) ([] : List Nat) [10, 20, 30] =
      [10, 20, 30].drop ([10, 20, 30].length - 2) :=
  memory_bounded_fifo 2 (by decide) [10, 20, 30]

/-- C7 counterexample: with max_messages configured to 0, one append
    leaves the history at length 1, exceeding the configured maximum —
    the Python slice `messages[-0:]` is the whole list, so nothing is
    trimmed. -/
theorem memory_zero_max_counterexample :
    (List.foldl (pyAddMessage 0) ([] : List PyMessage)
      [{ role := "user".toList, content := Json.str "hi".toList, ts := 0 }]).length > 0 := by
  decide

/-! ## Claim C6 -/

lemma remember_ok_of_save (facts : Facts) (cmd : List Char) :
    ∃ r, KnowledgeSkill.remember facts true cmd = Except.ok r ∧
      r.2.action = "speak".toList := by
  unfold KnowledgeSkill.remember
  by_cases h : strContainsB
      (pyReplaceL (pyReplaceL (pyLowerL cmd) "remember that ".toList [])
        "remember ".toList []) " is ".toList
  · rw [if_pos h, if_pos rfl]
    exact ⟨_, rfl, rfl⟩
  · rw [if_neg h]
    exact ⟨_, rfl, rfl⟩

lemma forget_ok_of_save (facts : Facts) (cmd : List Char) :
    ∃ r, KnowledgeSkill.forget facts true cmd = Except.ok r ∧
      r.2.action = "speak".toList := by
  unfold KnowledgeSkill.forget
  cases hf : List.find?
      (fun kv => strContainsB
          (pyReplaceL (pyReplaceL (pyLowerL cmd) "forget my ".toList []) "forget ".toList [])
          kv.1 ||
        strContainsB kv.1
          (pyReplaceL (pyReplaceL (pyLowerL cmd) "forget my ".toList []) "forget ".toList []))
      facts with
  | none => simp only [hf]; exact ⟨_, rfl, rfl⟩
  | some kv => simp only [hf]; exact ⟨_, rfl, rfl⟩

lemma recallA_action_speak (facts : Facts) (cmd : List Char) :
    (KnowledgeSkill.recallA facts cmd).action = "speak".toList := by
  unfold KnowledgeSkill.recallA
  cases hf : List.find?
      (fun kv => strContainsB (KnowledgeSkill.recallQuery (pyLowerL cmd)) kv.1 ||
        strContainsB kv.1 (KnowledgeSkill.recallQuery (pyLowerL cmd))) facts with
  | none => simp only [hf]
  | some kv => simp only [hf]

/-- C6 (amended): when persistence succeeds, the knowledge skill converts
    every utterance into a well-formed speak-only Action without raising;
    but an error raised inside `_save` is not caught by the skill or by
    `SkillManager.execute` (see the counterexample), so the claimed
    never-raise guarantee does not hold. -/
theorem knowledge_execute_speak_when_save_ok (facts : Facts) (cmd : List Char) :
    ∃ r, KnowledgeSkill.execute facts true cmd = Except.ok r ∧
      r.2.action = "speak".toList := by
  unfold KnowledgeSkill.execute
  by_cases h1 : strContainsB (pyLowerL cmd) "remember".toList
  · rw [if_pos h1]
    exact remember_ok_of_save facts cmd
  · rw [if_neg h1]
    by_cases h2 : strContainsB (pyLowerL cmd) "forget".toList
    · rw [if_pos h2]
      exact forget_ok_of_save facts cmd
    · rw [if_neg h2]
      by_cases h3 : (strContainsB (pyLowerL cmd) "what is my".toList ||
          strContainsB (pyLowerL cmd) "what's my".toList ||
          strContainsB (pyLowerL cmd) "do you know my".toList ||
          strContainsB (pyLowerL cmd) "recall".toList) = true
      · rw [if_pos h3]
        exact ⟨_, rfl, recallA_action_speak facts cmd⟩
      · rw [if_neg h3]
        exact ⟨_, rfl, rfl⟩

/-- C6 counterexample: a failing `_save` during
    `remember my favorite color is blue` escapes `KnowledgeSkill._remember`
    and crosses `SkillManager.execute` unhandled, instead of being turned
    into an apologetic speak Action. -/
theorem skill_manager_save_error_propagates :
    SkillManager.execute
      [(KnowledgeSkill.can_handle,
        fun c => (KnowledgeSkill.execute [] false c).map (fun r => r.2))]
      "remember my favorite color is blue".toList =
    Except.error "OSError".toList := rfl

/-! ## Claim C9 -/

/-- C9: the knowledge remember/recall round trip.  Remembering
    `my favorite color is blue` stores the fact and acknowledging it, and
    the subsequent `what is my favorite color` answers with a response
    containing "blue" (persistence assumed to succeed). -/
theorem knowledge_round_trip :
    KnowledgeSkill.execute [] true "remember my favorite color is blue".toList =
      Except.ok ([("favorite color".toList, "blue".toList)],
        { action := "speak".toList, target := none
          response := "Got it! I'll remember that your favorite color is blue.".toList }) ∧
    KnowledgeSkill.execute [("favorite color".toList, "blue".toList)] true
        "what is my favorite color".toList =
      Except.ok ([("favorite color".toList, "blue".toList)],
        { action := "speak".toList, target := none
          response := "Your favorite color is blue.".toList }) ∧
    strContainsB "Your favorite color is blue.".toList "blue".toList = true :=
  ⟨rfl, rfl, rfl⟩

/-! ## Claim C10 -/

/-- C10: when no custom command is truthy, no skill matched and the LLM
    call raises (either an ollama.ResponseError or any other exception),
    `Brain.process` returns a speak-only Action while the conversation
    memory already holds the appended user turn and no assistant turn:
    classification is not atomic with respect to history. -/
theorem brain_process_llm_error_memory (cmds : List (List Char × List Json))
    (skillRes : Option JAction) (llm : LlmOutcome) (mem : List PyMessage) (ts : Nat)
    (command : List Char) (e : List Char)
    (hcustom : customTruthy (CustomCommands.get_command cmds command) = false)
    (hskill : skillRes = none) :
    (llm = LlmOutcome.respErr e →
      Brain.process cmds skillRes llm mem ts command =
        some ({ action := Json.str "speak".toList, target := Json.null
                response := Json.str ("Sorry, Ollama error: ".toList ++ e) },
          pyAddMessage 30 mem { role := "user".toList, content := Json.str command, ts := ts })) ∧
    (llm = LlmOutcome.exn e →
      Brain.process cmds skillRes llm mem ts command =
        some ({ action := Json.str "speak".toList, target := Json.null
                response := Json.str ("Sorry, something went wrong: ".toList ++ e) },
          pyAddMessage 30 mem { role := "user".toList, content := Json.str command, ts := ts })) := by
  subst hskill
  constructor <;> intro hllm <;> subst hllm <;>
    simp only [Brain.process, hcustom, Bool.false_eq_true, if_false]

/-- Witness for C10 with an empty registry, no skill and a failing LLM. -/
theorem brain_process_llm_error_memory_witness :
    Brain.process [] none (LlmOutcome.exn "boom".toList) [] 0 "hi".toList =
      some ({ action := Json.str "speak".toList, target := Json.null
              response := Json.str ("Sorry, something went wrong: ".toList ++ "boom".toList) },
        pyAddMessage 30 [] { role := "user".toList, content := Json.str "hi".toList, ts := 0 }) :=
  (brain_process_llm_error_memory [] none (LlmOutcome.exn "boom".toList) [] 0 "hi".toList
    "boom".toList rfl rfl).2 rfl
